import Mathlib

/-!
Verification development for the NoOffice repository: two interactive
batch-conversion tools, `src/mkpdf/__main__.py` (office documents to
Markdown via the external `markitdown` process) and
`src/ppt2pdf/__main__.py` (PPTX to PDF via PowerPoint COM automation).

File names, selector inputs and paths are modelled as `List Char`
(Python `str`).  Python's `str.lower` is modelled with `Char.toLower`
(the inputs of interest are ASCII).  Directory contents are modelled as
the list of entry names in the order the OS reports them
(`os.listdir` / `scandir` order); `None` stands for a path that does
not exist or is not a directory.

The file is organised as: all definitions first, then all theorems.
-/

abbrev FileName := List Char

/-- Python `str.lower`, applied character-wise. -/
def lowerName (s : List Char) : List Char := s.map Char.toLower

/-- Python `s.endswith(suffix)`: `suffix` is a suffix of `s`. -/
def endswith (s suffix : List Char) : Bool := decide (suffix <:+ s)

/-- Lexicographic comparison of names by character code,
the ordering Python's `sorted` uses on strings. -/
def lexLe : List Char → List Char → Bool
  | [], _ => true
  | _ :: _, [] => false
  | a :: as, b :: bs => if a < b then true else if a = b then lexLe as bs else false

/-- Ordering key used by `sorted` on `pathlib` paths on Windows:
paths compare by their case-folded string. -/
def nameLe (a b : FileName) : Bool := lexLe (lowerName a) (lowerName b)

/-- Insert into a list kept ordered by `nameLe`. -/
def insertSorted (x : FileName) : List FileName → List FileName
  | [] => [x]
  | y :: ys => if nameLe x y then x :: y :: ys else y :: insertSorted x ys

/-- Model of Python `sorted` on a list of sibling paths (insertion sort;
`sorted` is a stable comparison sort computing the same ordered list). -/
def sortNames : List FileName → List FileName
  | [] => []
  | x :: xs => insertSorted x (sortNames xs)

/-- `headLe a l` : `a` is `nameLe`-below the head of `l` (vacuous for `[]`). -/
def headLe (a : FileName) : List FileName → Bool
  | [] => true
  | b :: _ => nameLe a b

/-- Adjacent-pairs sortedness of a name list under `nameLe`. -/
def sortedNamesB : List FileName → Bool
  | [] => true
  | [_] => true
  | a :: b :: rest => nameLe a b && sortedNamesB (b :: rest)

/-- Python `s.split(",")`: splits at every comma; `"".split(",") == [""]`,
and a trailing comma yields a trailing empty token. -/
def splitOnComma : List Char → List (List Char)
  | [] => [[]]
  | c :: rest =>
    if c = ',' then [] :: splitOnComma rest
    else
      match splitOnComma rest with
      | [] => [[c]]
      | t :: ts => (c :: t) :: ts

/-- ASCII whitespace stripped by Python `str.strip()`
(non-ASCII whitespace is not modelled). -/
def isPyWs (c : Char) : Bool := c == ' ' || c == '\t' || c == '\n' || c == '\r'

/-- Python `s.strip()` restricted to ASCII whitespace. -/
def stripWs (s : List Char) : List Char :=
  ((s.dropWhile isPyWs).reverse.dropWhile isPyWs).reverse

/-- How the body of either tool's `main()` ends, as seen by the
`if __name__ == "__main__":` guard. -/
inductive MainResult
  | normal
  | keyboardInterrupt
  | error
deriving DecidableEq

/-- Observable behaviour of a tool's outermost scope: whether a
cancellation notice is printed, whether a Python stack trace is shown,
and whether the process exit status is non-zero. -/
structure GuardOutcome where
  cancellationNotice : Bool
  stackTrace : Bool
  exitNonzero : Bool
deriving DecidableEq

namespace mkpdf

/-!
Model of `src/mkpdf/__main__.py`.
-/

/-- The inner `for ext in extensions: if file_lower.endswith(ext): ... break`
loop of `main` (lines 72-75): does the (already lower-cased) name end with
one of the (already lower-cased) suffixes? -/
def matchesAny (fileLower : List Char) : List (List Char) → Bool
  | [] => false
  | e :: es => if endswith fileLower e then true else matchesAny fileLower es

/-- The `for file in os.listdir(input_dir)` collection loop of `main`
(lines 68-75), with `extensions` already lower-cased. -/
def collectTargets (exts : List (List Char)) : List FileName → List FileName
  | [] => []
  | f :: fs =>
    if matchesAny (lowerName f) exts then f :: collectTargets exts fs
    else collectTargets exts fs

/-- `main` lines 67-75: lower-case the selected extensions, then collect the
directory entries whose lower-cased name ends with one of them, in
directory-listing order. -/
def targetFiles (listing : List FileName) (exts : List (List Char)) : List FileName :=
  collectTargets (exts.map lowerName) listing

/-- `main` line 59: `[ext.strip() for ext in extensions_input.split(",")]`. -/
def parseExtensions (input : List Char) : List (List Char) :=
  (splitOnComma input).map stripWs

/-- Result of `subprocess.run(['markitdown', ...], check=True)` for one file. -/
inductive RunOutcome
  | exitZero
  | exitNonZero
  | launchFailure
deriving DecidableEq

/-- `convert_file_to_md` (lines 10-28), conversion part: `check=True` makes a
non-zero exit raise `CalledProcessError` and a launch failure raises
`OSError`; both are `Exception`s, caught by the `except` clause which
returns `False`.  The function never lets the error escape. -/
def convert_file_to_md (r : RunOutcome) : Bool :=
  match r with
  | RunOutcome.exitZero => true
  | RunOutcome.exitNonZero => false
  | RunOutcome.launchFailure => false

/-- Observable events of one `mkpdf.main` run. -/
inductive MEvent
  /-- `os.makedirs(output_dir, exist_ok=True)` (line 64) returned. -/
  | mkdirOutput
  /-- `os.makedirs` (line 64) raised (uncaught). -/
  | mkdirCrash
  /-- `os.listdir(input_dir)` (line 70) raised (uncaught). -/
  | dirCrash
  | noFiles
  | convert (f : FileName) (ok : Bool)
  | summary (succ total : Nat)
  | cancelled
deriving DecidableEq

/-- Is this event a conversion attempt? -/
def isConvertEvent : MEvent → Bool
  | MEvent.convert _ _ => true
  | _ => false

/-- Is this event an uncaught exception (a surfaced error)? -/
def isCrashEvent : MEvent → Bool
  | MEvent.mkdirCrash => true
  | MEvent.dirCrash => true
  | _ => false

/-- State of the operator-supplied input path before the run. -/
inductive InputDirState
  /-- The path does not exist. -/
  | missing
  /-- The path exists but is not a directory (e.g. a regular file). -/
  | nonDir
  /-- A directory; `entries` is the listing `os.listdir` reports after
  the output directory has been created (line 64 runs before line 70,
  so with the default output path the `markdown_output` entry is
  already among them). -/
  | dir (entries : List FileName)
deriving DecidableEq

/-- The name of the default output subdirectory
(`os.path.join(input_dir, "markdown_output")`, line 63). -/
def mdOutputDirName : FileName :=
  ['m', 'a', 'r', 'k', 'd', 'o', 'w', 'n', '_', 'o', 'u', 't', 'p', 'u', 't']

/-- `main` lines 70-95, after the output directory exists: list the input
directory, filter, then — on confirmation — convert every target file and
report the tally. -/
def mkpdf_list_phase (entries : List FileName) (exts : List (List Char))
    (confirm : Bool) (outcome : FileName → RunOutcome) : List MEvent :=
  let targets := targetFiles entries exts
  if targets.isEmpty then [MEvent.noFiles]
  else if confirm then
    targets.map (fun f => MEvent.convert f (convert_file_to_md (outcome f)))
      ++ [MEvent.summary
            (targets.countP (fun f => convert_file_to_md (outcome f)))
            targets.length]
  else [MEvent.cancelled]

/-- `main` (lines 30-95) after the prompts.  `outputDefault = true` means
the operator accepted the default output path
`input_dir/markdown_output`; `false` means an independent path whose
parent exists.  Line 64 (`os.makedirs(..., exist_ok=True)`) runs before
line 70 (`os.listdir(input_dir)`), so:
with the default output path, a missing input directory is silently
created as a parent (the subsequent listing holds exactly the fresh
`markdown_output` entry), while a non-directory input path makes
`makedirs` itself raise before any output directory exists;
with an independent output path, `makedirs` succeeds and `os.listdir`
raises on a missing or non-directory input path.  Nothing in `mkpdf`
catches either exception. -/
def mkpdf_main_trace (input : InputDirState) (outputDefault : Bool)
    (exts : List (List Char)) (confirm : Bool)
    (outcome : FileName → RunOutcome) : List MEvent :=
  match input with
  | InputDirState.dir entries =>
      MEvent.mkdirOutput :: mkpdf_list_phase entries exts confirm outcome
  | InputDirState.missing =>
      if outputDefault then
        MEvent.mkdirOutput :: mkpdf_list_phase [mdOutputDirName] exts confirm outcome
      else [MEvent.mkdirOutput, MEvent.dirCrash]
  | InputDirState.nonDir =>
      if outputDefault then [MEvent.mkdirCrash]
      else [MEvent.mkdirOutput, MEvent.dirCrash]

/-- The `if __name__ == "__main__": main()` guard (lines 97-98): nothing is
caught, so a `KeyboardInterrupt` (or any other exception) escapes and the
interpreter prints a stack trace and exits non-zero. -/
def mkpdf_entry_guard (r : MainResult) : GuardOutcome :=
  match r with
  | MainResult.normal => { cancellationNotice := false, stackTrace := false, exitNonzero := false }
  | MainResult.keyboardInterrupt =>
      { cancellationNotice := false, stackTrace := true, exitNonzero := true }
  | MainResult.error =>
      { cancellationNotice := false, stackTrace := true, exitNonzero := true }

/-! Model of the POSIX `os.path` functions used by `convert_file_to_md`
(lines 12-17).  Paths are `/`-separated strings. -/

def isSlash (c : Char) : Bool := c == '/'

def notSlash (c : Char) : Bool := !(isSlash c)

/-- `os.path.basename(p)`: everything after the last `/`. -/
def basenameL (p : List Char) : List Char :=
  (p.reverse.takeWhile notSlash).reverse

/-- The `head` part of `os.path.split(p)`: everything up to and
including the last `/`. -/
def rawHead (p : List Char) : List Char :=
  (p.reverse.dropWhile notSlash).reverse

/-- Python `head.rstrip('/')`. -/
def rstripSlash (p : List Char) : List Char :=
  (p.reverse.dropWhile isSlash).reverse

/-- `os.path.dirname(p)`: the `head` of the split, with trailing slashes
stripped unless the head consists only of slashes. -/
def dirnameL (p : List Char) : List Char :=
  let h := rawHead p
  if h.all isSlash then h else rstripSlash h

/-- Python `s.startswith(pre)`. -/
def startswith (s pre : List Char) : Bool := decide (pre <+: s)

/-- `os.path.join(a, b)` (POSIX): an absolute `b` wins; otherwise the
separator is inserted unless `a` is empty or already ends with one. -/
def joinL (a b : List Char) : List Char :=
  if startswith b ['/'] then b
  else if a = [] ∨ endswith a ['/'] = true then a ++ b
  else a ++ '/' :: b

/-- The stem part of `os.path.splitext(b)[0]` for a basename `b`:
split at the last dot, except that dots leading the name do not start
an extension (`.bashrc` has no extension). -/
def stemL (b : List Char) : List Char :=
  let r := b.reverse
  let extRev := r.takeWhile (fun c => !(c == '.'))
  if extRev.length = r.length then b
  else
    let preRev := r.drop (extRev.length + 1)
    if preRev.all (fun c => c == '.') then b else preRev.reverse

def mdExt : List Char := ['.', 'm', 'd']

/-- `convert_file_to_md` lines 12-17: the output path it hands to
`markitdown`.  With `output_dir=None` the directory defaults to
`os.path.dirname(file_path)`; the name is
`os.path.splitext(os.path.basename(file_path))[0] + ".md"`. -/
def convert_file_output_path (filePath : List Char) (outputDir : Option (List Char)) :
    List Char :=
  let od := match outputDir with
    | none => dirnameL filePath
    | some d => d
  joinL od (stemL (basenameL filePath) ++ mdExt)

end mkpdf

namespace ppt2pdf

/-!
Model of `src/ppt2pdf/__main__.py`.
-/

/-- Lower-cased `".pptx"`. -/
def pptxExt : List Char := ['.', 'p', 'p', 't', 'x']

/-- `get_ppt_files` (lines 33-36): `sorted(list(Path(directory).glob("*.pptx")))`.
`Path.glob` on a path that does not exist or is not a directory (`none`)
yields nothing rather than raising; on a directory it yields the entries
matching `*.pptx`.  The tool is Windows-only (COM automation), where the
glob match and the path ordering are case-insensitive. -/
def get_ppt_files (dir : Option (List FileName)) : List FileName :=
  match dir with
  | none => []
  | some entries => sortNames (entries.filter (fun f => endswith (lowerName f) pptxExt))

/-- Non-empty all-digit strings parsed to a natural number
(the digit part of Python `int(str)`). -/
def parseDigits (s : List Char) : Option Nat :=
  if s ≠ [] ∧ s.all Char.isDigit then
    some (s.foldl (fun n c => 10 * n + (c.toNat - 48)) 0)
  else none

/-- Python `int(str)` on an already-stripped string: an optional sign
followed by digits.  (Python's digit-group underscores and non-ASCII
digits are not modelled.) -/
def parsePyInt (s : List Char) : Option Int :=
  match s with
  | '+' :: rest => (parseDigits rest).map (fun n => (n : Int))
  | '-' :: rest => (parseDigits rest).map (fun n => -(n : Int))
  | _ => (parseDigits s).map (fun n => (n : Int))

/-- `[int(idx.strip()) for idx in tokens]`: all tokens must parse;
the first `ValueError` aborts the whole comprehension. -/
def parseIntTokens : List (List Char) → Option (List Int)
  | [] => some []
  | t :: ts =>
    match parsePyInt (stripWs t) with
    | none => none
    | some n =>
      match parseIntTokens ts with
      | none => none
      | some ns => some (n :: ns)

/-- `select_ppt_files` line 65:
`indices = [int(idx.strip()) - 1 for idx in selection.split(",")]`. -/
def parsedIndices (input : List Char) : Option (List Int) :=
  match parseIntTokens (splitOnComma input) with
  | none => none
  | some ns => some (ns.map (fun n => n - 1))

/-- One pass of the `while True` body of `select_ppt_files` (lines 56-73):
`some sel` means the function returns `sel`, `none` means the body
prints an error and re-prompts (`continue` / the `except` branch). -/
def select_step {α : Type} (files : List α) (input : List Char) : Option (List α) :=
  if input.map Char.toLower = ['0'] then
    some files
  else
    match parsedIndices input with
    | none => none
    | some idxs =>
      let selected := idxs.filterMap (fun i =>
        if 0 ≤ i ∧ i < (files.length : Int) then files.get? i.toNat else none)
      if selected.isEmpty then none else some selected

/-- The `while True` re-prompt loop, driven by the successive operator
inputs; `none` means the operator never supplies an accepted input
(the loop keeps prompting). -/
def select_loop {α : Type} (files : List α) : List (List Char) → Option (List α)
  | [] => none
  | i :: rest =>
    match select_step files i with
    | some s => some s
    | none => select_loop files rest

/-- The resolved selection as the specification describes it: keep the
typed 1-based indices that lie in `[1, N]`, in typed order with
duplicates allowed, and map them to the candidate files. -/
def resolveSelection {α : Type} (files : List α) (typed : List Int) : List α :=
  typed.filterMap (fun n =>
    if 1 ≤ n ∧ n ≤ (files.length : Int) then files.get? (n - 1).toNat else none)

/-- Which COM-automation calls fail (raise) during one
`convert_pptx_to_pdf` cycle. -/
structure ComEnv where
  createFails : Bool
  setVisibleFails : Bool
  openWithWindowFails : Bool
  openPlainFails : Bool
  saveAsFails : Bool
  closeFails : Bool
deriving DecidableEq

/-- Observable result of one `convert_pptx_to_pdf` call. -/
structure ConvOutcome where
  /-- The exception propagated to the caller (the `except` clause re-raises). -/
  raised : Bool
  /-- `powerpoint.Quit()` was attempted by the `finally` clause. -/
  quitCalled : Bool
  /-- The background-mode warning was printed (non-fatal degradation). -/
  warnedVisible : Bool
deriving DecidableEq

/-- `convert_pptx_to_pdf` (lines 75-116): `CreateObject` failing leaves
`powerpoint` as `None`, so `finally` skips `Quit`; after a successful
`CreateObject`, every path — a failed open (both attempts), a failed
`SaveAs`, a failed `Close`, or success — runs the `finally` clause, whose
`if powerpoint:` test succeeds and `Quit()` is attempted (its own errors
are swallowed by `except: pass`).  Any body exception is printed and
re-raised by the `except` clause. -/
def convert_pptx_to_pdf (env : ComEnv) : ConvOutcome :=
  if env.createFails then
    { raised := true, quitCalled := false, warnedVisible := false }
  else
    let warned := env.setVisibleFails
    if env.openWithWindowFails && env.openPlainFails then
      { raised := true, quitCalled := true, warnedVisible := warned }
    else if env.saveAsFails then
      { raised := true, quitCalled := true, warnedVisible := warned }
    else if env.closeFails then
      { raised := true, quitCalled := true, warnedVisible := warned }
    else
      { raised := false, quitCalled := true, warnedVisible := warned }

/-- The conversion `for` loop of `main` (lines 161-164) counts how many
files the loop actually reaches: `convert_pptx_to_pdf` is called bare,
so the first call that raises aborts the loop and the remaining files
are never attempted. -/
def batchAttempted (envs : List ComEnv) : Nat :=
  match envs with
  | [] => 0
  | e :: rest =>
    if (convert_pptx_to_pdf e).raised then 1 else 1 + batchAttempted rest

/-- Observable events of one `ppt2pdf.main` run. -/
inductive PEvent
  | noFilesFound
  | promptStuck
  | cancelled
  | mkdirOutput
  | convert (f : FileName)
  | crash
  | doneAll
  /-- A surfaced `DirectoryNotFound` condition.  No code path of
  `ppt2pdf` produces this event; it exists to state what the
  specification asks for. -/
  | dirError
deriving DecidableEq

/-- Is this event a conversion attempt? -/
def isConvertPEvent : PEvent → Bool
  | PEvent.convert _ => true
  | _ => false

/-- The conversion loop of `main` (lines 161-164): each file is attempted
in order; the first `convert_pptx_to_pdf` that raises ends the run
(`crash`), otherwise the final message is printed (`doneAll`). -/
def ppt_convert_loop (envs : FileName → ComEnv) : List FileName → List PEvent
  | [] => [PEvent.doneAll]
  | f :: fs =>
    if (convert_pptx_to_pdf (envs f)).raised then [PEvent.convert f, PEvent.crash]
    else PEvent.convert f :: ppt_convert_loop envs fs

/-- `main` (lines 118-166): list the directory (empty result — including
for a missing directory — ends the run with the not-found message),
resolve the interactive selection, confirm, create the output directory
(line 149, `mkdir(parents=True, exist_ok=True)`), then convert. -/
def ppt2pdf_main_trace (dir : Option (List FileName)) (selInputs : List (List Char))
    (confirm : Bool) (envs : FileName → ComEnv) : List PEvent :=
  let files := get_ppt_files dir
  if files.isEmpty then [PEvent.noFilesFound]
  else
    match select_loop files selInputs with
    | none => [PEvent.promptStuck]
    | some sel =>
      if confirm then PEvent.mkdirOutput :: ppt_convert_loop envs sel
      else [PEvent.cancelled]

/-- The `if __name__ == "__main__":` guard (lines 168-175):
`KeyboardInterrupt` is caught, a cancellation notice is printed, and the
script then falls off the end — exit status zero, no stack trace.  Any
other exception is printed and then re-raised (stack trace, non-zero). -/
def ppt2pdf_entry_guard (r : MainResult) : GuardOutcome :=
  match r with
  | MainResult.normal => { cancellationNotice := false, stackTrace := false, exitNonzero := false }
  | MainResult.keyboardInterrupt =>
      { cancellationNotice := true, stackTrace := false, exitNonzero := false }
  | MainResult.error =>
      { cancellationNotice := false, stackTrace := true, exitNonzero := true }

end ppt2pdf

/-! Concrete inputs used by counterexamples and witnesses. -/

/-- The name `"a.pdf"`. -/
def apdf : FileName := ['a', '.', 'p', 'd', 'f']

/-- The name `"b.pdf"`. -/
def bpdf : FileName := ['b', '.', 'p', 'd', 'f']

/-- The extension `".pdf"`. -/
def dotPdf : List Char := ['.', 'p', 'd', 'f']

/-- The selector input `"all"`. -/
def allInput : List Char := ['a', 'l', 'l']

/-- The selector input `"0"`. -/
def zeroInput : List Char := ['0']

/-- The selector input `"1,5,3"`. -/
def idxInput : List Char := ['1', ',', '5', ',', '3']

/-- The custom-extension input `".pdf,"` (trailing comma). -/
def extInputTrailing : List Char := ['.', 'p', 'd', 'f', ',']

/-- A COM cycle in which `SaveAs` raises and everything else succeeds. -/
def saveAsFailEnv : ppt2pdf.ComEnv :=
  { createFails := false, setVisibleFails := false, openWithWindowFails := false,
    openPlainFails := false, saveAsFails := true, closeFails := false }

/-- A COM cycle in which every call succeeds. -/
def okComEnv : ppt2pdf.ComEnv :=
  { createFails := false, setVisibleFails := false, openWithWindowFails := false,
    openPlainFails := false, saveAsFails := false, closeFails := false }

/-! Theorems. First, general facts about the shared helpers. -/

theorem lexLe_total (a b : List Char) : lexLe a b = true ∨ lexLe b a = true := by
  induction a generalizing b with
  | nil => left; rfl
  | cons x xs ih =>
    cases b with
    | nil => right; rfl
    | cons y ys =>
      rcases lt_trichotomy x y with h | h | h
      · left; simp [lexLe, h]
      · subst h
        rcases ih ys with h2 | h2
        · left; simp [lexLe, h2]
        · right; simp [lexLe, h2]
      · right; simp [lexLe, h]

theorem nameLe_total (a b : FileName) : nameLe a b = true ∨ nameLe b a = true :=
  lexLe_total (lowerName a) (lowerName b)

theorem sortedNamesB_cons (a : FileName) (l : List FileName) :
    sortedNamesB (a :: l) = (headLe a l && sortedNamesB l) := by
  cases l with
  | nil => rfl
  | cons b bs => rfl

theorem mem_insertSorted (a x : FileName) (l : List FileName) :
    a ∈ insertSorted x l ↔ a = x ∨ a ∈ l := by
  induction l with
  | nil => simp [insertSorted]
  | cons y ys ih =>
    by_cases h : nameLe x y = true
    · simp [insertSorted, h]
    · simp only [insertSorted, if_neg h, List.mem_cons, ih]
      tauto

theorem headLe_insertSorted (a x : FileName) (l : List FileName)
    (hax : nameLe a x = true) (hal : headLe a l = true) :
    headLe a (insertSorted x l) = true := by
  cases l with
  | nil => simpa [insertSorted, headLe]
  | cons y ys =>
    by_cases h : nameLe x y = true
    · simpa [insertSorted, h, headLe]
    · simpa [insertSorted, h, headLe] using hal

theorem sortedNamesB_insertSorted (x : FileName) (l : List FileName)
    (hl : sortedNamesB l = true) : sortedNamesB (insertSorted x l) = true := by
  induction l with
  | nil => rfl
  | cons y ys ih =>
    rw [sortedNamesB_cons, Bool.and_eq_true] at hl
    by_cases h : nameLe x y = true
    · simp only [insertSorted, if_pos h]
      rw [sortedNamesB_cons, sortedNamesB_cons, Bool.and_eq_true, Bool.and_eq_true]
      exact ⟨h, hl⟩
    · have hyx : nameLe y x = true := by
        rcases nameLe_total x y with h2 | h2
        · exact absurd h2 h
        · exact h2
      simp only [insertSorted, if_neg h]
      rw [sortedNamesB_cons, Bool.and_eq_true]
      exact ⟨headLe_insertSorted y x ys hyx hl.1, ih hl.2⟩

theorem sortedNamesB_sortNames (l : List FileName) :
    sortedNamesB (sortNames l) = true := by
  induction l with
  | nil => rfl
  | cons x xs ih => exact sortedNamesB_insertSorted x (sortNames xs) ih

theorem mem_sortNames (a : FileName) (l : List FileName) :
    a ∈ sortNames l ↔ a ∈ l := by
  induction l with
  | nil => simp [sortNames]
  | cons x xs ih =>
    simp only [sortNames, mem_insertSorted, List.mem_cons, ih]

/-! Generic `takeWhile` / `dropWhile` facts used by the path model. -/

theorem takeWhile_append_all {α : Type} {p : α → Bool} (xs ys : List α)
    (h : ∀ x ∈ xs, p x = true) :
    (xs ++ ys).takeWhile p = xs ++ ys.takeWhile p := by
  induction xs with
  | nil => simp
  | cons a l ih =>
    have ha : p a = true := h a (by simp)
    simp only [List.cons_append, List.takeWhile_cons, ha, if_true]
    rw [ih (fun x hx => h x (by simp [hx]))]

theorem takeWhile_all {α : Type} {p : α → Bool} (xs : List α)
    (h : ∀ x ∈ xs, p x = true) : xs.takeWhile p = xs := by
  have := takeWhile_append_all xs [] h
  simpa using this

theorem takeWhile_cons_false {α : Type} {p : α → Bool} (a : α) (l : List α)
    (h : p a = false) : (a :: l).takeWhile p = [] := by
  simp [List.takeWhile_cons, h]

theorem dropWhile_append_all {α : Type} {p : α → Bool} (xs ys : List α)
    (h : ∀ x ∈ xs, p x = true) :
    (xs ++ ys).dropWhile p = ys.dropWhile p := by
  induction xs with
  | nil => simp
  | cons a l ih =>
    have ha : p a = true := h a (by simp)
    simp only [List.cons_append, List.dropWhile_cons, ha, if_true]
    exact ih (fun x hx => h x (by simp [hx]))

theorem dropWhile_all {α : Type} {p : α → Bool} (xs : List α)
    (h : ∀ x ∈ xs, p x = true) : xs.dropWhile p = [] := by
  have := dropWhile_append_all xs [] h
  simpa using this

theorem dropWhile_cons_false {α : Type} {p : α → Bool} (a : α) (l : List α)
    (h : p a = false) : (a :: l).dropWhile p = a :: l := by
  simp [List.dropWhile_cons, h]

theorem all_of_dropWhile_nil {α : Type} {p : α → Bool} (l : List α)
    (h : l.dropWhile p = []) : ∀ x ∈ l, p x = true := by
  induction l with
  | nil => intro x hx; cases hx
  | cons a t ih =>
    cases hpa : p a with
    | true =>
      rw [List.dropWhile_cons, hpa, if_pos rfl] at h
      intro x hx
      rcases List.mem_cons.mp hx with rfl | hx
      · exact hpa
      · exact ih h x hx
    | false => rw [dropWhile_cons_false a t hpa] at h; cases h

theorem dropWhile_head_false {α : Type} {p : α → Bool} (l : List α) (c : α) (t : List α)
    (h : l.dropWhile p = c :: t) : p c = false := by
  induction l with
  | nil => cases h
  | cons a l2 ih =>
    cases hpa : p a with
    | true =>
      rw [List.dropWhile_cons, hpa, if_pos rfl] at h
      exact ih h
    | false =>
      rw [dropWhile_cons_false a l2 hpa] at h
      cases h
      exact hpa

theorem mem_of_mem_takeWhile {α : Type} {p : α → Bool} {a : α} {l : List α}
    (h : a ∈ l.takeWhile p) : p a = true := by
  induction l with
  | nil => cases h
  | cons b t ih =>
    cases hpb : p b with
    | true =>
      rw [List.takeWhile_cons, hpb, if_pos rfl] at h
      rcases List.mem_cons.mp h with rfl | h
      · exact hpb
      · exact ih h
    | false => rw [takeWhile_cons_false b t hpb] at h; cases h

namespace mkpdf

theorem matchesAny_eq_any (fl : List Char) (es : List (List Char)) :
    matchesAny fl es = es.any (fun e => endswith fl e) := by
  induction es with
  | nil => rfl
  | cons e es ih =>
    by_cases h : endswith fl e = true
    · simp [matchesAny, h]
    · simp only [matchesAny, if_neg h, ih, List.any_cons]
      rw [Bool.eq_false_iff.mpr h, Bool.false_or]

theorem collectTargets_eq_filter (exts : List (List Char)) (l : List FileName) :
    collectTargets exts l = l.filter (fun f => matchesAny (lowerName f) exts) := by
  induction l with
  | nil => rfl
  | cons f fs ih =>
    by_cases h : matchesAny (lowerName f) exts = true
    · simp [collectTargets, h, List.filter_cons, ih]
    · simp [collectTargets, h, List.filter_cons, ih]

theorem matchesAny_of_nil_mem (fl : List Char) (es : List (List Char))
    (h : ([] : List Char) ∈ es) : matchesAny fl es = true := by
  induction es with
  | nil => cases h
  | cons e es ih =>
    rcases List.mem_cons.mp h with he | he
    · have : endswith fl e = true := by
        rw [← he]
        simp [endswith, List.nil_suffix]
      simp [matchesAny, this]
    · by_cases h2 : endswith fl e = true
      · simp [matchesAny, h2]
      · simp [matchesAny, h2, ih he]

theorem isSlash_iff (c : Char) : isSlash c = true ↔ c = '/' := by
  simp [isSlash]

theorem notSlash_true_of_false {c : Char} (h : isSlash c = false) : notSlash c = true := by
  rw [notSlash, h]; rfl

theorem endswith_slash_iff (a : List Char) :
    endswith a ['/'] = true ↔ ∃ t, t ++ ['/'] = a := by
  rw [endswith, decide_eq_true_iff]
  exact Iff.rfl

theorem last_of_append_singleton {s t : List Char} {x y : Char}
    (h : s ++ [x] = t ++ [y]) : x = y := by
  have := congrArg List.reverse h
  simp only [List.reverse_append, List.reverse_cons, List.reverse_nil,
    List.nil_append, List.singleton_append] at this
  exact (List.cons.injEq _ _ _ _ ▸ this).1

theorem endswith_slash_of_all (a : List Char) (hne : a ≠ [])
    (hall : a.all isSlash = true) : endswith a ['/'] = true := by
  rw [endswith_slash_iff]
  have hlast : a.getLast hne ∈ a := List.getLast_mem hne
  have hsl : isSlash (a.getLast hne) = true := (List.all_eq_true.mp hall) _ hlast
  refine ⟨a.dropLast, ?_⟩
  have hl2 : a.getLast hne = '/' := (isSlash_iff _).mp hsl
  rw [← hl2]
  exact List.dropLast_append_getLast hne

theorem basenameL_no_slash (p : List Char) :
    ∀ c ∈ basenameL p, isSlash c = false := by
  intro c hc
  rw [basenameL, List.mem_reverse] at hc
  have := mem_of_mem_takeWhile hc
  rwa [notSlash, Bool.not_eq_true'] at this

theorem mem_of_mem_stemL (b : List Char) : ∀ c ∈ stemL b, c ∈ b := by
  intro c hc
  rw [stemL] at hc
  by_cases h1 : (b.reverse.takeWhile (fun c => !(c == '.'))).length = b.reverse.length
  · rw [if_pos h1] at hc; exact hc
  · rw [if_neg h1] at hc
    by_cases h2 : (b.reverse.drop ((b.reverse.takeWhile (fun c => !(c == '.'))).length + 1)).all
        (fun c => c == '.') = true
    · rw [if_pos h2] at hc; exact hc
    · rw [if_neg h2, List.mem_reverse] at hc
      have := List.mem_of_mem_drop hc
      rwa [List.mem_reverse] at this

/-- If the tail name `n` contains no slash, `basename (join a n) = n`
for every prefix directory `a`. -/
theorem basenameL_joinL (a n : List Char) (hn : ∀ c ∈ n, isSlash c = false) :
    basenameL (joinL a n) = n := by
  have hrev : ∀ x ∈ n.reverse, notSlash x = true := fun x hx =>
    notSlash_true_of_false (hn x (List.mem_reverse.mp hx))
  have hslash : notSlash '/' = false := rfl
  have hstart : ¬ (startswith n ['/'] = true) := by
    rw [startswith, decide_eq_true_iff]
    intro hpre
    have : ('/' : Char) ∈ n := hpre.subset (by simp)
    have := hn _ this
    simp [isSlash] at this
  have key : ∀ u : List Char, (n.reverse ++ '/' :: u).takeWhile notSlash = n.reverse := by
    intro u
    rw [takeWhile_append_all _ _ hrev, takeWhile_cons_false _ _ hslash, List.append_nil]
  rw [joinL, if_neg hstart]
  by_cases hae : a = [] ∨ endswith a ['/'] = true
  · rw [if_pos hae]
    rcases hae with rfl | hend
    · rw [List.nil_append, basenameL, takeWhile_all _ hrev, List.reverse_reverse]
    · obtain ⟨t, rfl⟩ := (endswith_slash_iff a).mp hend
      rw [basenameL, List.reverse_append, List.reverse_append]
      simp only [List.reverse_cons, List.reverse_nil, List.nil_append, List.singleton_append]
      rw [key, List.reverse_reverse]
  · rw [if_neg hae]
    rw [basenameL, List.reverse_append, List.reverse_cons]
    rw [List.append_assoc, List.singleton_append]
    rw [key, List.reverse_reverse]

/-- If `a` is a possible `dirname` value (all slashes, or non-empty without
a trailing slash) and `n` is slash-free, `dirname (join a n) = a`. -/
theorem dirnameL_joinL (a n : List Char) (hn : ∀ c ∈ n, isSlash c = false)
    (ha : a.all isSlash = true ∨ (a ≠ [] ∧ endswith a ['/'] = false)) :
    dirnameL (joinL a n) = a := by
  have hrev : ∀ x ∈ n.reverse, notSlash x = true := fun x hx =>
    notSlash_true_of_false (hn x (List.mem_reverse.mp hx))
  have hslash : notSlash '/' = false := rfl
  have hstart : ¬ (startswith n ['/'] = true) := by
    rw [startswith, decide_eq_true_iff]
    intro hpre
    have : ('/' : Char) ∈ n := hpre.subset (by simp)
    have := hn _ this
    simp [isSlash] at this
  rw [joinL, if_neg hstart]
  rcases ha with hall | ⟨hne, hnoend⟩
  · have hae : a = [] ∨ endswith a ['/'] = true := by
      by_cases h0 : a = []
      · exact Or.inl h0
      · exact Or.inr (endswith_slash_of_all a h0 hall)
    rw [if_pos hae]
    cases hA : a with
    | nil =>
      subst hA
      rw [List.nil_append, dirnameL, rawHead, dropWhile_all _ hrev]
      rfl
    | cons c t =>
      subst hA
      have hner : (c :: t).reverse ≠ [] := by simp
      cases hrevA : (c :: t).reverse with
      | nil => exact absurd hrevA hner
      | cons d u =>
        have hd : isSlash d = true := by
          have hdmem : d ∈ (c :: t) := by
            rw [← List.mem_reverse, hrevA]; simp
          exact (List.all_eq_true.mp hall) _ hdmem
        have hdns : notSlash d = false := by rw [notSlash, hd]; rfl
        rw [dirnameL, rawHead, List.reverse_append, dropWhile_append_all _ _ hrev, hrevA,
          dropWhile_cons_false _ _ hdns, ← hrevA, List.reverse_reverse]
        rw [if_pos hall]
  · have hae : ¬ (a = [] ∨ endswith a ['/'] = true) := by
      rintro (rfl | h)
      · exact hne rfl
      · rw [hnoend] at h; cases h
    rw [if_neg hae]
    have hrawhead : rawHead (a ++ '/' :: n) = a ++ ['/'] := by
      rw [rawHead, List.reverse_append, List.reverse_cons, List.append_assoc,
        List.singleton_append, dropWhile_append_all _ _ hrev,
        dropWhile_cons_false _ _ hslash, List.reverse_cons, List.reverse_reverse]
    have hnotall : ¬ ((a ++ ['/']).all isSlash = true) := by
      intro hall2
      have : a.all isSlash = true := by
        rw [List.all_eq_true]
        intro x hx
        exact (List.all_eq_true.mp hall2) x (by simp [hx])
      by_cases h0 : a = []
      · exact hne h0
      · have := endswith_slash_of_all a h0 this
        rw [hnoend] at this; cases this
    rw [dirnameL, hrawhead, if_neg hnotall]
    cases hrevA : a.reverse with
    | nil =>
      exfalso
      apply hne
      have := congrArg List.reverse hrevA
      simpa using this
    | cons c t =>
      have hc : isSlash c = false := by
        cases hcs : isSlash c with
        | false => rfl
        | true =>
          exfalso
          have haeq : a = t.reverse ++ [c] := by
            have := congrArg List.reverse hrevA
            simpa using this
          have : endswith a ['/'] = true := by
            rw [endswith_slash_iff]
            exact ⟨t.reverse, by rw [haeq, (isSlash_iff c).mp hcs]⟩
          rw [hnoend] at this; cases this
      have hslashtrue : isSlash '/' = true := rfl
      rw [rstripSlash, List.reverse_append, List.reverse_cons, List.reverse_nil,
        List.nil_append, List.singleton_append, List.dropWhile_cons, hslashtrue,
        if_pos rfl, hrevA, dropWhile_cons_false _ _ hc, ← hrevA, List.reverse_reverse]

/-- A value produced by `dirnameL` is all slashes (possibly empty), or
non-empty without a trailing slash. -/
theorem dirnameL_cases (p : List Char) :
    (dirnameL p).all isSlash = true ∨
      ((dirnameL p) ≠ [] ∧ endswith (dirnameL p) ['/'] = false) := by
  rw [dirnameL]
  by_cases h : (rawHead p).all isSlash = true
  · rw [if_pos h]; left; exact h
  · rw [if_neg h]; right
    cases hdw : (rawHead p).reverse.dropWhile isSlash with
    | nil =>
      exfalso
      apply h
      rw [List.all_eq_true]
      intro x hx
      exact all_of_dropWhile_nil _ hdw x (List.mem_reverse.mpr hx)
    | cons c t =>
      have hc : isSlash c = false := dropWhile_head_false _ _ _ hdw
      constructor
      · rw [rstripSlash, hdw]
        simp
      · rw [rstripSlash, hdw, List.reverse_cons]
        rw [endswith, decide_eq_false_iff_not]
        rintro ⟨s, hs⟩
        have : ('/' : Char) = c := last_of_append_singleton hs
        rw [← this] at hc
        cases hc

theorem basenameL_of_no_slash (n : List Char) (hn : ∀ c ∈ n, isSlash c = false) :
    basenameL n = n := by
  rw [basenameL, takeWhile_all, List.reverse_reverse]
  intro x hx
  exact notSlash_true_of_false (hn x (List.mem_reverse.mp hx))

theorem output_name_no_slash (p : List Char) :
    ∀ c ∈ stemL (basenameL p) ++ mdExt, isSlash c = false := by
  intro c hc
  rcases List.mem_append.mp hc with h | h
  · exact basenameL_no_slash p c (mem_of_mem_stemL _ c h)
  · simp only [mdExt, List.mem_cons, List.not_mem_nil, or_false] at h
    rcases h with rfl | rfl | rfl <;> rfl

/-- On confirmation, the listing phase attempts exactly one conversion per
target file, whatever the outcomes. -/
theorem countP_convert_list_phase (entries : List FileName) (exts : List (List Char))
    (outcome : FileName → RunOutcome) :
    (mkpdf_list_phase entries exts true outcome).countP isConvertEvent =
      (targetFiles entries exts).length := by
  by_cases hT : (targetFiles entries exts).isEmpty = true
  · have hnil : targetFiles entries exts = [] := by
      cases h : targetFiles entries exts with
      | nil => rfl
      | cons a l => rw [h] at hT; cases hT
    simp only [mkpdf_list_phase, hT, if_true, hnil]
    rfl
  · rw [Bool.not_eq_true] at hT
    have htr : mkpdf_list_phase entries exts true outcome =
        (targetFiles entries exts).map
            (fun f => MEvent.convert f (convert_file_to_md (outcome f)))
          ++ [MEvent.summary
                ((targetFiles entries exts).countP
                  (fun f => convert_file_to_md (outcome f)))
                (targetFiles entries exts).length] := by
      simp [mkpdf_list_phase, hT]
    have h1 : List.countP isConvertEvent
        ((targetFiles entries exts).map
          (fun f => MEvent.convert f (convert_file_to_md (outcome f)))) =
        (targetFiles entries exts).length := by
      rw [List.countP_map, List.countP_eq_length]
      intro a _
      rfl
    have h2 : List.countP isConvertEvent
        [MEvent.summary
          ((targetFiles entries exts).countP (fun f => convert_file_to_md (outcome f)))
          (targetFiles entries exts).length] = 0 := rfl
    rw [htr, List.countP_append, h1, h2, Nat.add_zero]

/-- The listing phase never produces an uncaught-exception event. -/
theorem countP_crash_list_phase (entries : List FileName) (exts : List (List Char))
    (confirm : Bool) (outcome : FileName → RunOutcome) :
    (mkpdf_list_phase entries exts confirm outcome).countP isCrashEvent = 0 := by
  by_cases hT : (targetFiles entries exts).isEmpty = true
  · simp only [mkpdf_list_phase, hT, if_true]
    rfl
  · rw [Bool.not_eq_true] at hT
    by_cases hc : confirm = true
    · subst hc
      have htr : mkpdf_list_phase entries exts true outcome =
          (targetFiles entries exts).map
              (fun f => MEvent.convert f (convert_file_to_md (outcome f)))
            ++ [MEvent.summary
                  ((targetFiles entries exts).countP
                    (fun f => convert_file_to_md (outcome f)))
                  (targetFiles entries exts).length] := by
        simp [mkpdf_list_phase, hT]
      rw [htr, List.countP_append, List.countP_map]
      have h1 : List.countP (isCrashEvent ∘
          fun f => MEvent.convert f (convert_file_to_md (outcome f)))
          (targetFiles entries exts) = 0 := by
        rw [List.countP_eq_zero]
        intro a _
        simp [Function.comp, isCrashEvent]
      rw [h1]
      rfl
    · rw [Bool.not_eq_true] at hc
      subst hc
      have htr : mkpdf_list_phase entries exts false outcome = [MEvent.cancelled] := by
        simp [mkpdf_list_phase, hT]
      rw [htr]
      rfl

end mkpdf

namespace ppt2pdf

theorem mem_get_ppt_files (x : FileName) (dir : Option (List FileName)) :
    x ∈ get_ppt_files dir ↔
      ∃ entries, dir = some entries ∧ x ∈ entries ∧ endswith (lowerName x) pptxExt = true := by
  cases dir with
  | none => simp [get_ppt_files]
  | some entries =>
    simp [get_ppt_files, mem_sortNames, List.mem_filter]

theorem parsedIndices_eq_map (input : List Char) (typed : List Int)
    (h : parseIntTokens (splitOnComma input) = some typed) :
    parsedIndices input = some (typed.map (fun n => n - 1)) := by
  simp [parsedIndices, h]

theorem filterMap_sub_one {α : Type} (files : List α) (typed : List Int) :
    (typed.map (fun n => n - 1)).filterMap (fun i =>
        if 0 ≤ i ∧ i < (files.length : Int) then files.get? i.toNat else none) =
      resolveSelection files typed := by
  rw [resolveSelection, List.filterMap_map]
  apply List.filterMap_congr
  intro n _
  show (if 0 ≤ n - 1 ∧ n - 1 < (files.length : Int) then files.get? (n - 1).toNat else none) = _
  apply if_congr _ rfl rfl
  constructor
  · rintro ⟨h1, h2⟩; exact ⟨by omega, by omega⟩
  · rintro ⟨h1, h2⟩; exact ⟨by omega, by omega⟩

end ppt2pdf

/-! Claim theorems. -/

/-- C2, counterexample: the mkpdf File Lister preserves directory-listing
order, so for the listing `["b.pdf", "a.pdf"]` with filter `{".pdf"}` its
output is `["b.pdf", "a.pdf"]`, which is not lexicographically ordered by
name — contradicting the claim that the File Lister always returns a
lexicographically ordered list. -/
theorem c2_file_lister_counterexample :
    mkpdf.targetFiles [bpdf, apdf] [dotPdf] = [bpdf, apdf] ∧
      sortedNamesB [bpdf, apdf] = false := by
  decide

/-- C2, amended: the mkpdf File Lister returns exactly the entries whose
lower-cased name ends with a member of the lower-cased extension set, in
directory-listing order (not necessarily sorted); the ppt2pdf File Lister
returns a lexicographically ordered (case-insensitively, by name) list
containing exactly the entries whose lower-cased name ends with ".pptx". -/
theorem c2_file_lister_amended :
    (∀ (listing : List FileName) (exts : List (List Char)),
        mkpdf.targetFiles listing exts =
          listing.filter (fun f => (exts.map lowerName).any (fun e => endswith (lowerName f) e))) ∧
    (∀ dir : Option (List FileName),
        sortedNamesB (ppt2pdf.get_ppt_files dir) = true ∧
        ∀ x : FileName, x ∈ ppt2pdf.get_ppt_files dir ↔
          ∃ entries, dir = some entries ∧ x ∈ entries ∧
            endswith (lowerName x) ppt2pdf.pptxExt = true) := by
  constructor
  · intro listing exts
    rw [mkpdf.targetFiles, mkpdf.collectTargets_eq_filter]
    simp only [mkpdf.matchesAny_eq_any]
  · intro dir
    constructor
    · cases dir with
      | none => rfl
      | some entries => exact sortedNamesB_sortNames _
    · intro x
      exact ppt2pdf.mem_get_ppt_files x dir

/-- C3, counterexample: on the input `"all"` against the non-empty
candidate list `[10, 20, 30]`, the selector does not resolve to the full
list; `int("all")` raises `ValueError` and the selector re-prompts
(`none`), contradicting the claim that `"all"` is a full-selection
sentinel. -/
theorem c3_sentinel_counterexample :
    ppt2pdf.select_step ([10, 20, 30] : List Nat) allInput = none ∧
      ppt2pdf.select_step ([10, 20, 30] : List Nat) allInput ≠ some [10, 20, 30] := by
  decide

/-- C3, amended: for every non-empty candidate list, the sentinel `"0"`
resolves to the full candidate list with order preserved, while the input
`"all"` is a parse error that makes the selector re-prompt. -/
theorem c3_sentinel_amended {α : Type} (files : List α) (_h : files ≠ []) :
    ppt2pdf.select_step files zeroInput = some files ∧
      ppt2pdf.select_step files allInput = none := by
  constructor
  · unfold ppt2pdf.select_step
    rw [if_pos (by decide)]
  · unfold ppt2pdf.select_step
    rw [if_neg (by decide)]
    have hp : ppt2pdf.parsedIndices allInput = none := by decide
    rw [hp]

/-- C3, witness for the amended claim at the concrete non-empty list
`[10, 20, 30]`. -/
theorem c3_sentinel_witness :
    ppt2pdf.select_step ([10, 20, 30] : List Nat) zeroInput = some [10, 20, 30] ∧
      ppt2pdf.select_step ([10, 20, 30] : List Nat) allInput = none :=
  c3_sentinel_amended [10, 20, 30] (by decide)

/-- C6, counterexample: on a keyboard interrupt, mkpdf (which installs no
handler) shows a stack trace, and ppt2pdf (which catches it and then falls
off the end of the script) exits with status zero — contradicting the
claim that both tools print a notice, exit non-zero and never show a
stack trace. -/
theorem c6_interrupt_counterexample :
    (mkpdf.mkpdf_entry_guard MainResult.keyboardInterrupt).stackTrace = true ∧
      (ppt2pdf.ppt2pdf_entry_guard MainResult.keyboardInterrupt).exitNonzero = false := by
  decide

/-- C6, amended: ppt2pdf catches the operator interrupt at its outermost
scope, prints a cancellation notice and shows no stack trace, but exits
with status zero; mkpdf does not catch it at all — no cancellation notice,
a stack trace, and a non-zero exit. -/
theorem c6_interrupt_amended :
    ppt2pdf.ppt2pdf_entry_guard MainResult.keyboardInterrupt =
      { cancellationNotice := true, stackTrace := false, exitNonzero := false } ∧
    mkpdf.mkpdf_entry_guard MainResult.keyboardInterrupt =
      { cancellationNotice := false, stackTrace := true, exitNonzero := true } :=
  ⟨rfl, rfl⟩

/-- C7: in every COM conversion cycle in which the application handle was
acquired (`CreateObject` succeeded), `Quit` is attempted on every exit
path — including when opening, exporting or closing raises. -/
theorem c7_quit_on_every_path (env : ppt2pdf.ComEnv)
    (hacq : env.createFails = false) :
    (ppt2pdf.convert_pptx_to_pdf env).quitCalled = true := by
  unfold ppt2pdf.convert_pptx_to_pdf
  rw [if_neg (by simp [hacq])]
  by_cases h1 : (env.openWithWindowFails && env.openPlainFails) = true <;>
    by_cases h2 : env.saveAsFails = true <;>
    by_cases h3 : env.closeFails = true <;>
    simp [h1, h2, h3]

/-- C7, witness: a cycle in which `SaveAs` raises still attempts `Quit`. -/
theorem c7_quit_witness :
    (ppt2pdf.convert_pptx_to_pdf saveAsFailEnv).quitCalled = true :=
  c7_quit_on_every_path saveAsFailEnv rfl

/-- C9: in the mkpdf custom-extension path, an extension input containing
an empty token (empty input or trailing comma) makes the filter accept
every directory entry, because every lower-cased name ends with the empty
suffix. -/
theorem c9_empty_suffix_matches_all (listing : List FileName) (input : List Char)
    (h : ([] : List Char) ∈ mkpdf.parseExtensions input) :
    mkpdf.targetFiles listing (mkpdf.parseExtensions input) = listing := by
  have hmem : ([] : List Char) ∈ (mkpdf.parseExtensions input).map lowerName :=
    List.mem_map.mpr ⟨[], h, rfl⟩
  rw [mkpdf.targetFiles, mkpdf.collectTargets_eq_filter, List.filter_eq_self]
  intro f _
  exact mkpdf.matchesAny_of_nil_mem _ _ hmem

/-- C9, witness: the input `".pdf,"` produces the token list
`[".pdf", ""]`, and the filter then keeps both `a.pdf` and `b.pdf`
(and would keep any entry). -/
theorem c9_empty_suffix_witness :
    mkpdf.targetFiles [apdf, bpdf] (mkpdf.parseExtensions extInputTrailing) = [apdf, bpdf] :=
  c9_empty_suffix_matches_all [apdf, bpdf] extInputTrailing (by decide)

/-- C10: for every input path, the output path computed with
`output_dir=None` lies in the input file's own directory and carries the
input's base name with the `.md` extension. -/
theorem c10_default_output_in_input_dir (p : List Char) :
    mkpdf.dirnameL (mkpdf.convert_file_output_path p none) = mkpdf.dirnameL p ∧
      mkpdf.basenameL (mkpdf.convert_file_output_path p none) =
        mkpdf.stemL (mkpdf.basenameL p) ++ mkpdf.mdExt := by
  have hn := mkpdf.output_name_no_slash p
  constructor
  · exact mkpdf.dirnameL_joinL _ _ hn (mkpdf.dirnameL_cases p)
  · exact mkpdf.basenameL_joinL _ _ hn

/-- C1, counterexample: with two selected files whose first conversion
fails (`SaveAs` raises) and whose second would succeed, the ppt2pdf batch
loop attempts only the first file — the exception propagates out of the
loop and the second file is never processed, contradicting the claim that
a per-file failure never aborts the batch. -/
theorem c1_batch_isolation_counterexample :
    ppt2pdf.batchAttempted [saveAsFailEnv, okComEnv] = 1 ∧
      [saveAsFailEnv, okComEnv].length = 2 := by
  decide

/-- C1, amended: mkpdf catches every per-file converter failure and
processes all target files (the number of conversion attempts equals the
number of targets regardless of outcomes); ppt2pdf attempts files in
order only up to and including the first conversion that raises, and
aborts there. -/
theorem c1_batch_isolation_amended :
    (∀ (outcome : FileName → mkpdf.RunOutcome) (entries : List FileName)
        (exts : List (List Char)) (outputDefault : Bool),
        (mkpdf.mkpdf_main_trace (mkpdf.InputDirState.dir entries) outputDefault exts true
            outcome).countP
            mkpdf.isConvertEvent = (mkpdf.targetFiles entries exts).length) ∧
    (∀ envs : List ppt2pdf.ComEnv,
        ppt2pdf.batchAttempted envs =
          min envs.length
            ((envs.takeWhile (fun e => !(ppt2pdf.convert_pptx_to_pdf e).raised)).length + 1)) := by
  constructor
  · intro outcome entries exts outputDefault
    have htrace : mkpdf.mkpdf_main_trace (mkpdf.InputDirState.dir entries) outputDefault exts
        true outcome =
        mkpdf.MEvent.mkdirOutput :: mkpdf.mkpdf_list_phase entries exts true outcome := rfl
    rw [htrace, List.countP_cons, mkpdf.countP_convert_list_phase]
    have hfalse : mkpdf.isConvertEvent mkpdf.MEvent.mkdirOutput = false := rfl
    rw [hfalse]
    simp
  · intro envs
    induction envs with
    | nil => rfl
    | cons e rest ih =>
      by_cases hr : (ppt2pdf.convert_pptx_to_pdf e).raised = true
      · simp only [ppt2pdf.batchAttempted, hr, eq_self_iff_true, if_true,
          List.takeWhile_cons, Bool.not_true, Bool.false_eq_true, if_false,
          List.length_cons, List.length_nil]
        omega
      · rw [Bool.not_eq_true] at hr
        simp only [ppt2pdf.batchAttempted, hr, Bool.false_eq_true, if_false,
          List.takeWhile_cons, Bool.not_false, eq_self_iff_true, if_true,
          List.length_cons, ih]
        omega

/-- C4: for every candidate list and every non-sentinel input whose
comma-separated tokens all parse as integers, the selector drops exactly
the indices outside `[1, N]`, returns the candidates at the remaining
indices in typed order (duplicates allowed), and re-prompts instead of
returning an empty selection when everything was dropped. -/
theorem c4_index_selection {α : Type} (files : List α) (input : List Char) (typed : List Int)
    (hs : ¬ (input.map Char.toLower = ['0']))
    (hp : ppt2pdf.parseIntTokens (splitOnComma input) = some typed) :
    ppt2pdf.select_step files input =
      if (ppt2pdf.resolveSelection files typed).isEmpty then none
      else some (ppt2pdf.resolveSelection files typed) := by
  unfold ppt2pdf.select_step
  rw [if_neg hs, ppt2pdf.parsedIndices_eq_map input typed hp]
  simp only [ppt2pdf.filterMap_sub_one]

/-- C4, witness: input `"1,5,3"` against `[10, 20, 30]` — the token `5` is
out of range and dropped; the result keeps indices 1 and 3 in typed
order. -/
theorem c4_index_selection_witness :
    ppt2pdf.select_step ([10, 20, 30] : List Nat) idxInput =
      if (ppt2pdf.resolveSelection ([10, 20, 30] : List Nat) [1, 5, 3]).isEmpty then none
      else some (ppt2pdf.resolveSelection ([10, 20, 30] : List Nat) [1, 5, 3]) :=
  c4_index_selection [10, 20, 30] idxInput [1, 5, 3] (by decide) (by decide)

/-- C5, counterexample: for a path that does not exist or is not a
directory, ppt2pdf's run ends with the ordinary "no PPTX files found"
message — the same outcome as for an empty directory — and no
`DirectoryNotFound` condition is ever surfaced, contradicting the claim
that the File Lister fails with such a condition. -/
theorem c5_dir_not_found_counterexample :
    ppt2pdf.ppt2pdf_main_trace none [] true (fun _ => okComEnv) =
        [ppt2pdf.PEvent.noFilesFound] ∧
      ppt2pdf.PEvent.dirError ∉
        ppt2pdf.ppt2pdf_main_trace none [] true (fun _ => okComEnv) := by
  constructor
  · rfl
  · intro hmem
    rw [show ppt2pdf.ppt2pdf_main_trace none [] true (fun _ => okComEnv) =
        [ppt2pdf.PEvent.noFilesFound] from rfl] at hmem
    simp at hmem

/-- C5, amended: neither tool reliably surfaces a `DirectoryNotFound`
condition.  In mkpdf the behaviour depends on the output path:
with the default output path (`input_dir/markdown_output`), a missing
input directory is silently created by `os.makedirs` before `os.listdir`
runs, so no error event ever occurs (with the stock PDF filter the run
ends normally with the "no files" message), while an input path that is
a regular file makes `os.makedirs` itself raise before the output
directory exists; only with an independently-located output path does
`os.listdir` raise, halting the run after the output directory was
created but before any file-level work.  In ppt2pdf, an invalid
directory is indistinguishable from an empty one — the lister returns an
empty list and the run ends with the "no files found" message, not an
error condition. -/
theorem c5_dir_not_found_amended :
    (∀ (exts : List (List Char)) (confirm : Bool) (outcome : FileName → mkpdf.RunOutcome),
        (mkpdf.mkpdf_main_trace mkpdf.InputDirState.missing true exts confirm outcome).countP
          mkpdf.isCrashEvent = 0) ∧
    (∀ (confirm : Bool) (outcome : FileName → mkpdf.RunOutcome),
        mkpdf.mkpdf_main_trace mkpdf.InputDirState.missing true [dotPdf] confirm outcome =
          [mkpdf.MEvent.mkdirOutput, mkpdf.MEvent.noFiles]) ∧
    (∀ (exts : List (List Char)) (confirm : Bool) (outcome : FileName → mkpdf.RunOutcome),
        mkpdf.mkpdf_main_trace mkpdf.InputDirState.nonDir true exts confirm outcome =
          [mkpdf.MEvent.mkdirCrash] ∧
        mkpdf.mkpdf_main_trace mkpdf.InputDirState.missing false exts confirm outcome =
          [mkpdf.MEvent.mkdirOutput, mkpdf.MEvent.dirCrash] ∧
        mkpdf.mkpdf_main_trace mkpdf.InputDirState.nonDir false exts confirm outcome =
          [mkpdf.MEvent.mkdirOutput, mkpdf.MEvent.dirCrash]) ∧
    (∀ (selInputs : List (List Char)) (confirm : Bool) (envs : FileName → ppt2pdf.ComEnv),
        ppt2pdf.ppt2pdf_main_trace none selInputs confirm envs =
          [ppt2pdf.PEvent.noFilesFound]) ∧
    ppt2pdf.get_ppt_files none = ppt2pdf.get_ppt_files (some []) := by
  refine ⟨?_, fun _ _ => rfl, fun _ _ _ => ⟨rfl, rfl, rfl⟩, fun _ _ _ => rfl, rfl⟩
  intro exts confirm outcome
  have htrace : mkpdf.mkpdf_main_trace mkpdf.InputDirState.missing true exts confirm outcome =
      mkpdf.MEvent.mkdirOutput ::
        mkpdf.mkpdf_list_phase [mkpdf.mdOutputDirName] exts confirm outcome := rfl
  rw [htrace, List.countP_cons, mkpdf.countP_crash_list_phase]
  rfl

/-- C8: in every run of either tool, any conversion attempt in the run
trace is strictly preceded by the creation of the output directory. -/
theorem c8_mkdir_before_convert :
    (∀ (input : mkpdf.InputDirState) (outputDefault : Bool) (exts : List (List Char))
        (confirm : Bool) (outcome : FileName → mkpdf.RunOutcome) (k : Nat)
        (f : FileName) (b : Bool),
        (mkpdf.mkpdf_main_trace input outputDefault exts confirm outcome).get? k =
            some (mkpdf.MEvent.convert f b) →
        ∃ j, j < k ∧ (mkpdf.mkpdf_main_trace input outputDefault exts confirm outcome).get? j =
            some mkpdf.MEvent.mkdirOutput) ∧
    (∀ (dir : Option (List FileName)) (selInputs : List (List Char)) (confirm : Bool)
        (envs : FileName → ppt2pdf.ComEnv) (k : Nat) (f : FileName),
        (ppt2pdf.ppt2pdf_main_trace dir selInputs confirm envs).get? k =
            some (ppt2pdf.PEvent.convert f) →
        ∃ j, j < k ∧ (ppt2pdf.ppt2pdf_main_trace dir selInputs confirm envs).get? j =
            some ppt2pdf.PEvent.mkdirOutput) := by
  constructor
  · intro input outputDefault exts confirm outcome k f b hk
    cases input with
    | dir entries =>
      refine ⟨0, ?_, rfl⟩
      cases k with
      | zero =>
        exfalso
        have hk2 : some mkpdf.MEvent.mkdirOutput = some (mkpdf.MEvent.convert f b) := hk
        exact absurd (Option.some.inj hk2) (by simp)
      | succ n => exact Nat.succ_pos n
    | missing =>
      cases outputDefault with
      | true =>
        refine ⟨0, ?_, rfl⟩
        cases k with
        | zero =>
          exfalso
          have hk2 : some mkpdf.MEvent.mkdirOutput = some (mkpdf.MEvent.convert f b) := hk
          exact absurd (Option.some.inj hk2) (by simp)
        | succ n => exact Nat.succ_pos n
      | false =>
        refine ⟨0, ?_, rfl⟩
        cases k with
        | zero =>
          exfalso
          have hk2 : some mkpdf.MEvent.mkdirOutput = some (mkpdf.MEvent.convert f b) := hk
          exact absurd (Option.some.inj hk2) (by simp)
        | succ n => exact Nat.succ_pos n
    | nonDir =>
      cases outputDefault with
      | true =>
        exfalso
        have hk2 : ([mkpdf.MEvent.mkdirCrash] : List mkpdf.MEvent).get? k =
            some (mkpdf.MEvent.convert f b) := hk
        cases k with
        | zero => exact absurd (Option.some.inj hk2) (by simp)
        | succ n => simp at hk2
      | false =>
        refine ⟨0, ?_, rfl⟩
        cases k with
        | zero =>
          exfalso
          have hk2 : some mkpdf.MEvent.mkdirOutput = some (mkpdf.MEvent.convert f b) := hk
          exact absurd (Option.some.inj hk2) (by simp)
        | succ n => exact Nat.succ_pos n
  · intro dir selInputs confirm envs k f hk
    simp only [ppt2pdf.ppt2pdf_main_trace] at hk ⊢
    by_cases hemp : (ppt2pdf.get_ppt_files dir).isEmpty = true
    · rw [if_pos hemp] at hk
      exfalso
      cases k with
      | zero => exact absurd (Option.some.inj hk) (by simp)
      | succ n => simp at hk
    · rw [if_neg hemp] at hk ⊢
      cases hsel : ppt2pdf.select_loop (ppt2pdf.get_ppt_files dir) selInputs with
      | none =>
        rw [hsel] at hk
        dsimp only at hk
        exfalso
        cases k with
        | zero => exact absurd (Option.some.inj hk) (by simp)
        | succ n => simp at hk
      | some sel =>
        rw [hsel] at hk
        dsimp only at hk ⊢
        by_cases hcf : confirm = true
        · rw [if_pos hcf] at hk ⊢
          refine ⟨0, ?_, rfl⟩
          cases k with
          | zero => exact absurd (Option.some.inj hk) (by simp)
          | succ n => exact Nat.succ_pos n
        · rw [if_neg hcf] at hk
          exfalso
          cases k with
          | zero => exact absurd (Option.some.inj hk) (by simp)
          | succ n => simp at hk

/-- C8, witness: in a concrete mkpdf run converting `a.pdf`, the
conversion event at position 1 is preceded by the directory creation at
position 0. -/
theorem c8_mkdir_witness :
    ∃ j, j < 1 ∧ (mkpdf.mkpdf_main_trace (mkpdf.InputDirState.dir [apdf]) true [dotPdf] true
        (fun _ => mkpdf.RunOutcome.exitZero)).get? j = some mkpdf.MEvent.mkdirOutput :=
  c8_mkdir_before_convert.1 (mkpdf.InputDirState.dir [apdf]) true [dotPdf] true
    (fun _ => mkpdf.RunOutcome.exitZero) 1 apdf true (by decide)
